import Mathlib

/-
Verification development for the toml_file module
(plugins/modules/files/toml_file.py). The reconciliation core `do_toml`
(lines 132-204 of the source) is embedded shallowly: the Python dict
produced by toml.load becomes an ordered association list, Python
str-or-None parameters become Option String, and the uncaught Python
exceptions of the core (TypeError on a None working context, fatal
fail_json on decode errors) become the `none` result.
-/

set_option linter.unusedVariables false

namespace TomlFile

/-- Entry models one value of the loaded TOML dict: either a scalar
(a string, or Python None as inserted by the core itself) or a nested
table (a section). -/
inductive Entry where
  | scalar : Option String → Entry
  | table : List (String × Entry) → Entry

/-- Tbl models a Python dict from string keys to TOML values, as an
ordered association list. Dict keys are unique, and every operation
below preserves uniqueness. -/
abbrev Tbl := List (String × Entry)

/-- Python truthiness of a str-or-None parameter: None and the empty
string are falsy. -/
def truthy : Option String → Bool
  | none => false
  | some s => !(s == "")

/-- Coerce a truthy str-or-None parameter to its string. -/
def pyStr : Option String → String
  | none => ""
  | some s => s

/-- Python str(value) as used by "Added key {}={}.".format: None prints
as the four letters None. -/
def fmtVal : Option String → String
  | none => "None"
  | some s => s

/-- Dict membership: key in d. -/
def tblMem (t : Tbl) (k : String) : Bool :=
  t.any (fun p => p.1 == k)

/-- Dict lookup: d[k], as an Option. -/
def tblGet (t : Tbl) (k : String) : Option Entry :=
  (t.find? (fun p => p.1 == k)).map (fun p => p.2)

/-- Dict assignment d[k] = v: replaces in place, keeping position, or
appends a fresh key at the end, as Python dicts do. -/
def tblSet : Tbl → String → Entry → Tbl
  | [], k, v => [(k, v)]
  | p :: rest, k, v => if p.1 == k then (k, v) :: rest else p :: tblSet rest k v

/-- Dict removal d.pop(k). Dict keys are unique, so dropping every
binding of k coincides with removing the one binding. -/
def tblPop (t : Tbl) (k : String) : Tbl :=
  t.filter (fun p => !(p.1 == k))

/-- Python substring membership key in s for strings, reached when the
working context is a scalar string rather than a dict. -/
def strContains (s pat : String) : Bool :=
  if pat == "" then true else !((s.splitOn pat).length == 1)

/-- Python equality working_context[key] != value between a stored TOML
value and the str-or-None request value: a dict never equals a string
or None; scalars compare as Option String. -/
def entryNe : Entry → Option String → Bool
  | .scalar s, v => !(s == v)
  | .table _, _ => true

/-- Python equality working_context[key] == value, used by the guarded
removal branch. -/
def entryEq : Entry → Option String → Bool
  | .scalar s, v => s == v
  | .table _, _ => false

/-- The state parameter, restricted by the argument spec to the two
choices present and absent. -/
inductive St where
  | present
  | absent

/-- Where the working_context variable points after the section step:
nowhere (Python None), at the whole document, or at the entry stored
under a section name. -/
inductive Ctx where
  | noCtx
  | topCtx
  | secCtx : String → Ctx

/-- Result of the section-handling step: the possibly mutated document,
the working context, and the changed flag and messages so far. -/
structure SecOut where
  doc : Tbl
  ctx : Ctx
  changed : Bool
  msgs : List String

/-- Result of the reconciliation core: the mutated in-memory document,
the changed flag, and the message list in production order. -/
structure TomlResult where
  doc : Tbl
  changed : Bool
  msgs : List String

/-- Section-handling step of do_toml (source lines 146-165): select the
working context and create or remove the section as required. -/
def sectionStep (content : Tbl) (sec key : Option String) (state : St) : SecOut :=
  if truthy sec then
    let s := pyStr sec
    match state with
    | .present =>
        if tblMem content s then
          ⟨content, .secCtx s, false, []⟩
        else
          ⟨tblSet content s (.table []), .secCtx s, true, ["Added section " ++ s ++ "."]⟩
    | .absent =>
        if truthy key then
          if tblMem content s then
            ⟨content, .secCtx s, false, []⟩
          else
            ⟨content, .noCtx, false, []⟩
        else
          if tblMem content s then
            ⟨tblPop content s, .noCtx, true, ["Removed section " ++ s ++ "."]⟩
          else
            ⟨content, .noCtx, false, []⟩
  else
    ⟨content, .topCtx, false, []⟩

/-- Key-handling step of do_toml (source lines 169-186), acting on the
resolved working context. A none context is Python None and raises
TypeError on the membership test; a scalar string context hits the
Python substring and item-access semantics of str; a scalar None
context raises TypeError. The none result models these uncaught
exceptions. -/
def keyStep (ctx : Option Entry) (key : String) (value : Option String) (state : St) :
    Option (Entry × Bool × List String) :=
  match state, ctx with
  | .present, some (.table t) =>
      let t1 := if tblMem t key then t else tblSet t key (.scalar none)
      match tblGet t1 key with
      | some cur =>
          if entryNe cur value then
            some (.table (tblSet t1 key (.scalar value)), true,
              ["Added key " ++ key ++ "=" ++ fmtVal value ++ "."])
          else
            some (.table t1, false, [])
      | none => none
  | .present, _ => none
  | .absent, some (.table t) =>
      if tblMem t key then
        if truthy value then
          match tblGet t key with
          | some cur =>
              if entryEq cur value then
                some (.table (tblPop t key), true, ["Removed key " ++ key ++ "."])
              else
                some (.table t, false, [])
          | none => none
        else
          some (.table (tblPop t key), true, ["Removed key " ++ key ++ "."])
      else
        some (.table t, false, [])
  | .absent, some (.scalar (some s)) =>
      if strContains s key then none else some (.scalar (some s), false, [])
  | .absent, _ => none

/-- Resolve the working context reference against the document. -/
def resolveCtx (doc : Tbl) : Ctx → Option Entry
  | .noCtx => none
  | .topCtx => some (.table doc)
  | .secCtx s => tblGet doc s

/-- Write the mutated working context back into the document. Mutation
through the Python alias is: the whole document for the top-level
context, the entry under the section name otherwise. -/
def writeCtx (content : Tbl) (ctx : Ctx) (e : Entry) : Tbl :=
  match ctx with
  | .topCtx =>
      match e with
      | .table t => t
      | .scalar _ => content
  | .secCtx s => tblSet content s e
  | .noCtx => content

/-- The reconciliation core of do_toml (source lines 132-186 plus the
changed flag and message list of line 204), acting on an already loaded
document. The create parameter is part of the source signature and is
never read. A none result models an uncaught Python exception. -/
def do_toml (content : Tbl) (sec key value : Option String) (state : St)
    (create : Bool) : Option TomlResult :=
  let s1 := sectionStep content sec key state
  if truthy key then
    match keyStep (resolveCtx s1.doc s1.ctx) (pyStr key) value state with
    | some (e, ch2, m2) =>
        some ⟨writeCtx s1.doc s1.ctx e, s1.changed || ch2, s1.msgs ++ m2⟩
    | none => none
  else
    some ⟨s1.doc, s1.changed, s1.msgs⟩

/-- do_toml with its load phase (lines 137-144) and persistence guard
(line 188): pathExists tells whether the target path exists, parsed is
what toml.load would produce there (none on a decode error, which
fail_json turns into a fatal abort, modelled none), and the second
component of the result records whether the serialize-and-atomic-move
block runs. -/
def do_toml_io (pathExists : Bool) (parsed : Option Tbl) (checkMode : Bool)
    (sec key value : Option String) (state : St) (create : Bool) :
    Option (TomlResult × Bool) :=
  match (if pathExists then parsed else some []) with
  | none => none
  | some content =>
      match do_toml content sec key value state create with
      | some r => some (r, r.changed && !checkMode)
      | none => none

/-- One Python value of the result dict delivered to the host. -/
inductive PyVal where
  | pstr : String → PyVal
  | pbool : Bool → PyVal
  | pdict : List (String × String) → PyVal

/-- The dict built at source line 204: dict(changed=changed,
origin_message=diff, msg=' '.join(msg)), where diff is the untouched
dict(before='', after='') of line 134. -/
def resultDict (r : TomlResult) : List (String × PyVal) :=
  [("changed", .pbool r.changed),
   ("origin_message", .pdict [("before", ""), ("after", "")]),
   ("msg", .pstr (String.intercalate " " r.msgs))]

/-- The default result dict of run_module (source lines 208-212). -/
def initialResult : List (String × PyVal) :=
  [("changed", .pbool false),
   ("original_message", .pstr ""),
   ("message", .pstr "")]

/-- run_module (source lines 206-245): in check mode it exits
immediately with the default result and no do_toml call; otherwise it
runs do_toml and delivers its dict. The Bool component records whether
the file was written. -/
def run_module (checkMode pathExists : Bool) (parsed : Option Tbl)
    (sec key value : Option String) (state : St) (create : Bool) :
    Option (List (String × PyVal) × Bool) :=
  if checkMode then
    some (initialResult, false)
  else
    match do_toml_io pathExists parsed checkMode sec key value state create with
    | some (r, wrote) => some (resultDict r, wrote)
    | none => none

theorem tblMem_set (t : Tbl) (k : String) (v : Entry) : tblMem (tblSet t k v) k = true := by
  induction t with
  | nil => simp [tblSet, tblMem]
  | cons p rest ih =>
      by_cases hp : p.1 == k
      · simp [tblSet, tblMem, hp]
      · simp only [tblSet, hp, if_false, Bool.false_eq_true]
        simp only [tblMem, List.any_cons] at ih ⊢
        simp [ih]

theorem tblGet_set (t : Tbl) (k : String) (v : Entry) : tblGet (tblSet t k v) k = some v := by
  induction t with
  | nil => simp [tblSet, tblGet]
  | cons p rest ih =>
      by_cases hp : p.1 == k
      · simp [tblSet, tblGet, hp]
      · simp only [tblSet, hp, if_false, Bool.false_eq_true]
        simp only [tblGet, List.find?_cons] at ih ⊢
        simp only [hp]
        exact ih

theorem tblSet_get (t : Tbl) (k : String) (v : Entry) (h : tblGet t k = some v) :
    tblSet t k v = t := by
  induction t with
  | nil => simp [tblGet] at h
  | cons p rest ih =>
      by_cases hp : p.1 == k
      · have hk : p.1 = k := by simpa using hp
        have hv : p.2 = v := by simpa [tblGet, List.find?_cons, hp] using h
        simp [tblSet, hp, ← hk, ← hv]
      · simp only [tblGet, List.find?_cons, hp, cond_false] at h
        simp only [tblSet, hp, if_false, Bool.false_eq_true]
        rw [ih h]

theorem tblMem_pop (t : Tbl) (k : String) : tblMem (tblPop t k) k = false := by
  induction t with
  | nil => simp [tblPop, tblMem]
  | cons p rest ih =>
      by_cases hp : p.1 == k
      · simp only [tblPop, List.filter, hp, Bool.not_true]
        exact ih
      · simp only [tblPop, List.filter, hp, Bool.not_false] at ih ⊢
        simp [tblMem, List.any_cons, hp, ih]

theorem tblGet_of_mem (t : Tbl) (k : String) (h : tblMem t k = true) :
    ∃ e, tblGet t k = some e := by
  induction t with
  | nil => simp [tblMem] at h
  | cons p rest ih =>
      by_cases hp : p.1 == k
      · exact ⟨p.2, by simp [tblGet, hp]⟩
      · simp only [tblMem, List.any_cons, hp, Bool.false_or] at h
        obtain ⟨e, he⟩ := ih h
        exact ⟨e, by simpa [tblGet, List.find?_cons, hp] using he⟩

theorem tblMem_of_get (t : Tbl) (k : String) (e : Entry) (h : tblGet t k = some e) :
    tblMem t k = true := by
  induction t with
  | nil => simp [tblGet] at h
  | cons p rest ih =>
      by_cases hp : p.1 == k
      · simp [tblMem, hp]
      · simp only [tblGet, List.find?_cons, hp, cond_false] at h
        simp only [tblMem, List.any_cons, hp, Bool.false_or]
        exact ih h

theorem keyStep_idem (c : Option Entry) (k : String) (v : Option String) (st : St)
    (e : Entry) (ch : Bool) (m : List String)
    (h : keyStep c k v st = some (e, ch, m)) :
    keyStep (some e) k v st = some (e, false, []) := by
  cases st with
  | present =>
      cases c with
      | none => simp [keyStep] at h
      | some ent =>
          cases ent with
          | scalar s => simp [keyStep] at h
          | table t =>
              have hmem1 : tblMem (if tblMem t k then t else tblSet t k (Entry.scalar none)) k = true := by
                by_cases hm : tblMem t k <;> simp [hm, tblMem_set]
              obtain ⟨cur, hcur⟩ := tblGet_of_mem _ k hmem1
              by_cases hne : entryNe cur v = true
              · have hred : keyStep (some (Entry.table t)) k v St.present =
                    some (Entry.table (tblSet (if tblMem t k then t else tblSet t k (Entry.scalar none)) k
                        (Entry.scalar v)), true,
                      ["Added key " ++ k ++ "=" ++ fmtVal v ++ "."]) := by
                  simp [keyStep, hcur, hne]
                rw [hred] at h
                simp only [Option.some.injEq, Prod.mk.injEq] at h
                obtain ⟨he, -, -⟩ := h
                subst he
                simp [keyStep, tblMem_set, tblGet_set, entryNe]
              · have hne2 : entryNe cur v = false := by simpa using hne
                have hred : keyStep (some (Entry.table t)) k v St.present =
                    some (Entry.table (if tblMem t k then t else tblSet t k (Entry.scalar none)), false, []) := by
                  simp [keyStep, hcur, hne2]
                rw [hred] at h
                simp only [Option.some.injEq, Prod.mk.injEq] at h
                obtain ⟨he, -, -⟩ := h
                subst he
                simp [keyStep, hmem1, hcur, hne2]
  | absent =>
      cases c with
      | none => simp [keyStep] at h
      | some ent =>
          cases ent with
          | scalar s =>
              cases s with
              | none => simp [keyStep] at h
              | some str =>
                  by_cases hc : strContains str k = true
                  · simp [keyStep, hc] at h
                  · have hc2 : strContains str k = false := by simpa using hc
                    have hred : keyStep (some (Entry.scalar (some str))) k v St.absent =
                        some (Entry.scalar (some str), false, []) := by
                      simp [keyStep, hc2]
                    rw [hred] at h
                    simp only [Option.some.injEq, Prod.mk.injEq] at h
                    obtain ⟨he, -, -⟩ := h
                    subst he
                    simp [keyStep, hc2]
          | table t =>
              by_cases hm : tblMem t k = true
              · by_cases hv : truthy v = true
                · obtain ⟨cur, hcur⟩ := tblGet_of_mem t k hm
                  by_cases heq : entryEq cur v = true
                  · have hred : keyStep (some (Entry.table t)) k v St.absent =
                        some (Entry.table (tblPop t k), true, ["Removed key " ++ k ++ "."]) := by
                      simp [keyStep, hm, hv, hcur, heq]
                    rw [hred] at h
                    simp only [Option.some.injEq, Prod.mk.injEq] at h
                    obtain ⟨he, -, -⟩ := h
                    subst he
                    simp [keyStep, tblMem_pop]
                  · have heq2 : entryEq cur v = false := by simpa using heq
                    have hred : keyStep (some (Entry.table t)) k v St.absent =
                        some (Entry.table t, false, []) := by
                      simp [keyStep, hm, hv, hcur, heq2]
                    rw [hred] at h
                    simp only [Option.some.injEq, Prod.mk.injEq] at h
                    obtain ⟨he, -, -⟩ := h
                    subst he
                    simp [keyStep, hm, hv, hcur, heq2]
                · have hv2 : truthy v = false := by simpa using hv
                  have hred : keyStep (some (Entry.table t)) k v St.absent =
                      some (Entry.table (tblPop t k), true, ["Removed key " ++ k ++ "."]) := by
                    simp [keyStep, hm, hv2]
                  rw [hred] at h
                  simp only [Option.some.injEq, Prod.mk.injEq] at h
                  obtain ⟨he, -, -⟩ := h
                  subst he
                  simp [keyStep, tblMem_pop]
              · have hm2 : tblMem t k = false := by simpa using hm
                have hred : keyStep (some (Entry.table t)) k v St.absent =
                    some (Entry.table t, false, []) := by
                  simp [keyStep, hm2]
                rw [hred] at h
                simp only [Option.some.injEq, Prod.mk.injEq] at h
                obtain ⟨he, -, -⟩ := h
                subst he
                simp [keyStep, hm2]

theorem keyStep_table (t : Tbl) (k : String) (v : Option String) (st : St)
    (e : Entry) (ch : Bool) (m : List String)
    (h : keyStep (some (Entry.table t)) k v st = some (e, ch, m)) :
    ∃ t2, e = Entry.table t2 := by
  cases st with
  | present =>
      simp only [keyStep] at h
      split at h
      · split at h <;>
          · simp only [Option.some.injEq, Prod.mk.injEq] at h
            exact ⟨_, h.1.symm⟩
      · exact absurd h (by simp)
  | absent =>
      simp only [keyStep] at h
      split at h
      · split at h
        · split at h
          · split at h <;>
              · simp only [Option.some.injEq, Prod.mk.injEq] at h
                exact ⟨_, h.1.symm⟩
          · exact absurd h (by simp)
        · simp only [Option.some.injEq, Prod.mk.injEq] at h
          exact ⟨_, h.1.symm⟩
      · simp only [Option.some.injEq, Prod.mk.injEq] at h
        exact ⟨_, h.1.symm⟩

theorem do_toml_sec_key_second (c1 : Tbl) (sec key value : Option String) (st : St)
    (create : Bool) (e : Entry) (ch2 : Bool) (m2 : List String)
    (hs : truthy sec = true) (hk : truthy key = true)
    (hks : keyStep (tblGet c1 (pyStr sec)) (pyStr key) value st = some (e, ch2, m2)) :
    do_toml (tblSet c1 (pyStr sec) e) sec key value st create =
      some ⟨tblSet c1 (pyStr sec) e, false, []⟩ := by
  have hmem2 : tblMem (tblSet c1 (pyStr sec) e) (pyStr sec) = true :=
    tblMem_set c1 (pyStr sec) e
  have hget2 : tblGet (tblSet c1 (pyStr sec) e) (pyStr sec) = some e :=
    tblGet_set c1 (pyStr sec) e
  have hsec2 : sectionStep (tblSet c1 (pyStr sec) e) sec key st =
      ⟨tblSet c1 (pyStr sec) e, Ctx.secCtx (pyStr sec), false, []⟩ := by
    cases st <;> simp [sectionStep, hs, hk, hmem2]
  have hks2 : keyStep (some e) (pyStr key) value st = some (e, false, []) :=
    keyStep_idem _ _ _ _ _ _ _ hks
  simp [do_toml, hsec2, hk, resolveCtx, hget2, hks2, writeCtx, tblSet_get _ _ _ hget2]

/-- Claim C1: idempotence of reconciliation. For every Request
(section, key, value, state, create) and every document on which the
first application of do_toml returns normally with result r, applying
the same Request again to the resulting document r.doc returns
normally with changed = false, an empty message list, and the document
unchanged, so the serialized bytes are identical after the second
(non-)write. -/
theorem do_toml_idempotent (content : Tbl) (sec key value : Option String)
    (state : St) (create : Bool) (r : TomlResult)
    (h : do_toml content sec key value state create = some r) :
    do_toml r.doc sec key value state create = some ⟨r.doc, false, []⟩ := by
  by_cases hk : truthy key = true
  · by_cases hs : truthy sec = true
    · cases state with
      | present =>
          by_cases hm : tblMem content (pyStr sec) = true
          · have hsec1 : sectionStep content sec key St.present =
                ⟨content, Ctx.secCtx (pyStr sec), false, []⟩ := by
              simp [sectionStep, hs, hm]
            rcases hks : keyStep (tblGet content (pyStr sec)) (pyStr key) value St.present
              with _ | ⟨e, ch2, m2⟩
            · simp [do_toml, hsec1, hk, resolveCtx, hks] at h
            · simp [do_toml, hsec1, hk, resolveCtx, hks, writeCtx] at h
              subst h
              exact do_toml_sec_key_second content sec key value St.present create e ch2 m2 hs hk hks
          · have hm2 : tblMem content (pyStr sec) = false := by simpa using hm
            have hsec1 : sectionStep content sec key St.present =
                ⟨tblSet content (pyStr sec) (Entry.table []), Ctx.secCtx (pyStr sec), true,
                  ["Added section " ++ pyStr sec ++ "."]⟩ := by
              simp [sectionStep, hs, hm2]
            rcases hks : keyStep (tblGet (tblSet content (pyStr sec) (Entry.table []))
                (pyStr sec)) (pyStr key) value St.present with _ | ⟨e, ch2, m2⟩
            · simp [do_toml, hsec1, hk, resolveCtx, hks] at h
            · simp [do_toml, hsec1, hk, resolveCtx, hks, writeCtx] at h
              subst h
              exact do_toml_sec_key_second (tblSet content (pyStr sec) (Entry.table []))
                sec key value St.present create e ch2 m2 hs hk hks
      | absent =>
          by_cases hm : tblMem content (pyStr sec) = true
          · have hsec1 : sectionStep content sec key St.absent =
                ⟨content, Ctx.secCtx (pyStr sec), false, []⟩ := by
              simp [sectionStep, hs, hk, hm]
            rcases hks : keyStep (tblGet content (pyStr sec)) (pyStr key) value St.absent
              with _ | ⟨e, ch2, m2⟩
            · simp [do_toml, hsec1, hk, resolveCtx, hks] at h
            · simp [do_toml, hsec1, hk, resolveCtx, hks, writeCtx] at h
              subst h
              exact do_toml_sec_key_second content sec key value St.absent create e ch2 m2 hs hk hks
          · have hm2 : tblMem content (pyStr sec) = false := by simpa using hm
            have hsec1 : sectionStep content sec key St.absent =
                ⟨content, Ctx.noCtx, false, []⟩ := by
              simp [sectionStep, hs, hk, hm2]
            simp [do_toml, hsec1, hk, resolveCtx, keyStep] at h
    · have hs2 : truthy sec = false := by simpa using hs
      have hsec1 : sectionStep content sec key state = ⟨content, Ctx.topCtx, false, []⟩ := by
        cases state <;> simp [sectionStep, hs2]
      rcases hks : keyStep (some (Entry.table content)) (pyStr key) value state
        with _ | ⟨e, ch2, m2⟩
      · simp [do_toml, hsec1, hk, resolveCtx, hks] at h
      · obtain ⟨t2, rfl⟩ := keyStep_table _ _ _ _ _ _ _ hks
        simp [do_toml, hsec1, hk, resolveCtx, hks, writeCtx] at h
        subst h
        have hsec2 : sectionStep t2 sec key state = ⟨t2, Ctx.topCtx, false, []⟩ := by
          cases state <;> simp [sectionStep, hs2]
        have hks2 : keyStep (some (Entry.table t2)) (pyStr key) value state =
            some (Entry.table t2, false, []) :=
          keyStep_idem _ _ _ _ _ _ _ hks
        simp [do_toml, hsec2, hk, resolveCtx, hks2, writeCtx]
  · have hk2 : truthy key = false := by simpa using hk
    by_cases hs : truthy sec = true
    · cases state with
      | present =>
          by_cases hm : tblMem content (pyStr sec) = true
          · have hsec1 : sectionStep content sec key St.present =
                ⟨content, Ctx.secCtx (pyStr sec), false, []⟩ := by
              simp [sectionStep, hs, hm]
            simp [do_toml, hsec1, hk2] at h
            subst h
            simp [do_toml, hsec1, hk2]
          · have hm2 : tblMem content (pyStr sec) = false := by simpa using hm
            have hsec1 : sectionStep content sec key St.present =
                ⟨tblSet content (pyStr sec) (Entry.table []), Ctx.secCtx (pyStr sec), true,
                  ["Added section " ++ pyStr sec ++ "."]⟩ := by
              simp [sectionStep, hs, hm2]
            simp [do_toml, hsec1, hk2] at h
            subst h
            have hmem2 : tblMem (tblSet content (pyStr sec) (Entry.table [])) (pyStr sec) = true :=
              tblMem_set content (pyStr sec) (Entry.table [])
            have hsec2 : sectionStep (tblSet content (pyStr sec) (Entry.table [])) sec key St.present =
                ⟨tblSet content (pyStr sec) (Entry.table []), Ctx.secCtx (pyStr sec), false, []⟩ := by
              simp [sectionStep, hs, hmem2]
            simp [do_toml, hsec2, hk2]
      | absent =>
          by_cases hm : tblMem content (pyStr sec) = true
          · have hsec1 : sectionStep content sec key St.absent =
                ⟨tblPop content (pyStr sec), Ctx.noCtx, true,
                  ["Removed section " ++ pyStr sec ++ "."]⟩ := by
              simp [sectionStep, hs, hk2, hm]
            simp [do_toml, hsec1, hk2] at h
            subst h
            have hmem2 : tblMem (tblPop content (pyStr sec)) (pyStr sec) = false :=
              tblMem_pop content (pyStr sec)
            have hsec2 : sectionStep (tblPop content (pyStr sec)) sec key St.absent =
                ⟨tblPop content (pyStr sec), Ctx.noCtx, false, []⟩ := by
              simp [sectionStep, hs, hk2, hmem2]
            simp [do_toml, hsec2, hk2]
          · have hm2 : tblMem content (pyStr sec) = false := by simpa using hm
            have hsec1 : sectionStep content sec key St.absent =
                ⟨content, Ctx.noCtx, false, []⟩ := by
              simp [sectionStep, hs, hk2, hm2]
            simp [do_toml, hsec1, hk2] at h
            subst h
            simp [do_toml, hsec1, hk2]
    · have hs2 : truthy sec = false := by simpa using hs
      have hsec1 : sectionStep content sec key state = ⟨content, Ctx.topCtx, false, []⟩ := by
        cases state <;> simp [sectionStep, hs2]
      simp [do_toml, hsec1, hk2] at h
      subst h
      simp [do_toml, hsec1, hk2]

/-- Witness for do_toml_idempotent: the scenario-1 request applied to the
empty document yields the drinks section with fav set; applying it again
to that result yields changed false, no messages, and the same document. -/
theorem do_toml_idempotent_witness :
    do_toml [("drinks", Entry.table [("fav", Entry.scalar (some "lemonade"))])]
        (some "drinks") (some "fav") (some "lemonade") St.present true =
      some ⟨[("drinks", Entry.table [("fav", Entry.scalar (some "lemonade"))])], false, []⟩ :=
  do_toml_idempotent [] (some "drinks") (some "fav") (some "lemonade") St.present true
    ⟨[("drinks", Entry.table [("fav", Entry.scalar (some "lemonade"))])], true,
      ["Added section drinks.", "Added key fav=lemonade."]⟩ rfl

/-- Claim C2 (code bug): a Request with state absent and a key, naming a
section that is not in the document, does not return normally with
changed false; the working context stays None and the membership test
key in working_context raises TypeError, modelled by the none result. -/
theorem do_toml_absent_missing_section_raises :
    do_toml [] (some "drinks") (some "fav") none St.absent true = none := rfl

/-- Claim C3 (code bug): run_module in check mode exits with the default
result, changed false and empty message, without ever calling do_toml,
while the real run on the same input reports changed true with the two
messages, so check mode does not produce the same Outcome. -/
theorem run_module_check_mode_short_circuits :
    run_module true false (some []) (some "drinks") (some "fav") (some "lemonade")
        St.present true = some (initialResult, false)
    ∧ run_module false false (some []) (some "drinks") (some "fav") (some "lemonade")
        St.present true =
      some ([("changed", PyVal.pbool true),
             ("origin_message", PyVal.pdict [("before", ""), ("after", "")]),
             ("msg", PyVal.pstr "Added section drinks. Added key fav=lemonade.")], true)
    ∧ initialResult =
      [("changed", PyVal.pbool false), ("original_message", PyVal.pstr ""),
       ("message", PyVal.pstr "")] :=
  ⟨rfl, rfl, rfl⟩

/-- Claim C4 (code bug): the dict that do_toml actually returns carries
the keys changed, origin_message and msg, not the documented
original_message and message; the msg entry does hold the space-joined
message list in production order. -/
theorem do_toml_result_dict_fields :
    (do_toml [] (some "drinks") (some "fav") (some "lemonade") St.present true).map resultDict =
      some [("changed", PyVal.pbool true),
            ("origin_message", PyVal.pdict [("before", ""), ("after", "")]),
            ("msg", PyVal.pstr "Added section drinks. Added key fav=lemonade.")]
    ∧ (["changed", "origin_message", "msg"] : List String) ≠
      ["changed", "original_message", "message"] :=
  ⟨rfl, by decide⟩

/-- Claim C5 counterexample: with the key fav currently lemonade and the
supplied value the empty string, a mismatching supplied value, removal
is not blocked: the key step reports changed true, refuting the claim
that any supplied non-matching value leaves the document untouched with
changed false. -/
theorem keyStep_absent_value_guard_cex :
    (keyStep (some (Entry.table [("fav", Entry.scalar (some "lemonade"))])) "fav" (some "")
        St.absent).map (fun p => p.2.1) = some true
    ∧ (some true : Option Bool) ≠ some false :=
  ⟨rfl, by decide⟩

/-- Claim C5 (amended): for every working context in which the key is
present, a state-absent Request removes the key unconditionally with
message Removed key, recording a change, whenever the supplied value is
falsy, that is omitted or the empty string; when a truthy value was
supplied the key is removed exactly when its current value equals the
supplied value, and on a mismatch the context is left untouched with
changed false and no message. -/
theorem keyStep_absent_value_guard (t : Tbl) (k : String) (cur : Entry)
    (hget : tblGet t k = some cur) :
    (∀ v : Option String, truthy v = false →
        keyStep (some (Entry.table t)) k v St.absent =
          some (Entry.table (tblPop t k), true, ["Removed key " ++ k ++ "."]))
    ∧ (∀ s : String, truthy (some s) = true →
        keyStep (some (Entry.table t)) k (some s) St.absent =
          if entryEq cur (some s) then
            some (Entry.table (tblPop t k), true, ["Removed key " ++ k ++ "."])
          else
            some (Entry.table t, false, [])) := by
  have hmem : tblMem t k = true := tblMem_of_get t k cur hget
  constructor
  · intro v hv
    simp [keyStep, hmem, hv]
  · intro s hsv
    by_cases heq : entryEq cur (some s) = true <;>
      simp [keyStep, hmem, hsv, hget, heq]

/-- Witness for keyStep_absent_value_guard: against the table with fav
set to lemonade, an omitted value removes the key, and the mismatching
value tea leaves the table untouched with changed false. -/
theorem keyStep_absent_value_guard_witness :
    keyStep (some (Entry.table [("fav", Entry.scalar (some "lemonade"))])) "fav" none
        St.absent = some (Entry.table [], true, ["Removed key fav."])
    ∧ keyStep (some (Entry.table [("fav", Entry.scalar (some "lemonade"))])) "fav" (some "tea")
        St.absent = some (Entry.table [("fav", Entry.scalar (some "lemonade"))], false, []) :=
  ⟨(keyStep_absent_value_guard [("fav", Entry.scalar (some "lemonade"))] "fav"
      (Entry.scalar (some "lemonade")) rfl).1 none rfl,
   ((keyStep_absent_value_guard [("fav", Entry.scalar (some "lemonade"))] "fav"
      (Entry.scalar (some "lemonade")) rfl).2 "tea" rfl).trans rfl⟩

/-- Claim C6: the serialize-and-atomic-move block of do_toml runs
exactly when the run produced changed true and check mode is off; with
changed false the target file is not written at all. -/
theorem do_toml_io_writes_iff (pathExists : Bool) (parsed : Option Tbl) (checkMode : Bool)
    (sec key value : Option String) (state : St) (create : Bool)
    (r : TomlResult) (wrote : Bool)
    (h : do_toml_io pathExists parsed checkMode sec key value state create = some (r, wrote)) :
    wrote = true ↔ (r.changed = true ∧ checkMode = false) := by
  unfold do_toml_io at h
  split at h
  · exact absurd h (by simp)
  · split at h
    · simp only [Option.some.injEq, Prod.mk.injEq] at h
      obtain ⟨h1, h2⟩ := h
      subst h1
      subst h2
      constructor
      · intro hw
        simpa [Bool.and_eq_true, Bool.not_eq_true'] using hw
      · intro hw
        simp [Bool.and_eq_true, Bool.not_eq_true', hw.1, hw.2]
    · exact absurd h (by simp)

/-- Witness for do_toml_io_writes_iff: the scenario-1 request on a
missing path with check mode off produces changed true and the write
happens. -/
theorem do_toml_io_writes_iff_witness :
    ((true : Bool) = true ↔ ((true : Bool) = true ∧ (false : Bool) = false)) :=
  do_toml_io_writes_iff false (some []) false (some "drinks") (some "fav") (some "lemonade")
    St.present true
    ⟨[("drinks", Entry.table [("fav", Entry.scalar (some "lemonade"))])], true,
      ["Added section drinks.", "Added key fav=lemonade."]⟩ true rfl

/-- Claim C7: from the empty document, the Request section drinks, key
fav, value lemonade, state present yields changed true, the messages
Added section drinks. and Added key fav=lemonade., and a document whose
drinks section maps fav to lemonade. -/
theorem do_toml_scenario_create :
    do_toml [] (some "drinks") (some "fav") (some "lemonade") St.present true =
      some ⟨[("drinks", Entry.table [("fav", Entry.scalar (some "lemonade"))])], true,
        ["Added section drinks.", "Added key fav=lemonade."]⟩ := rfl

/-- Claim C8 counterexample: with state present, key supplied, value
omitted and an empty starting document, the key is indeed absent from
the working context, yet do_toml reports changed true, because creating
the section already recorded a change; the claim that changed is false
fails as universally stated. -/
theorem do_toml_present_none_value_cex :
    (do_toml [] (some "s") (some "k") none St.present true).map (fun x => x.changed) = some true
    ∧ (some true : Option Bool) ≠ some false :=
  ⟨rfl, by decide⟩

/-- Claim C8 (amended): when state is present with a key supplied and
the value omitted, and the key is absent from a working context that
already existed, that is the sectionless top-level context or a section
already present in the document, do_toml inserts the key with value
None into the in-memory document but reports changed false and emits no
message, so the insertion is never persisted. -/
theorem do_toml_present_none_value (content : Tbl) (sec : Option String) (k : String)
    (hk : truthy (some k) = true) :
    (truthy sec = false → tblMem content k = false →
        do_toml content sec (some k) none St.present true =
          some ⟨tblSet content k (Entry.scalar none), false, []⟩)
    ∧ (∀ (s : String) (t : Tbl), sec = some s → truthy (some s) = true →
        tblGet content s = some (Entry.table t) → tblMem t k = false →
        do_toml content sec (some k) none St.present true =
          some ⟨tblSet content s (Entry.table (tblSet t k (Entry.scalar none))), false, []⟩) := by
  constructor
  · intro hs2 hkey
    have hsec1 : sectionStep content sec (some k) St.present =
        ⟨content, Ctx.topCtx, false, []⟩ := by
      simp [sectionStep, hs2]
    have hks : keyStep (some (Entry.table content)) k none St.present =
        some (Entry.table (tblSet content k (Entry.scalar none)), false, []) := by
      simp [keyStep, hkey, tblGet_set, entryNe]
    simp [do_toml, hsec1, hk, resolveCtx, pyStr, hks, writeCtx]
  · intro s t hse hs hsec hkey
    subst hse
    have hmem : tblMem content s = true := tblMem_of_get content s _ hsec
    have hsec1 : sectionStep content (some s) (some k) St.present =
        ⟨content, Ctx.secCtx s, false, []⟩ := by
      simp [sectionStep, hs, pyStr, hmem]
    have hks : keyStep (some (Entry.table t)) k none St.present =
        some (Entry.table (tblSet t k (Entry.scalar none)), false, []) := by
      simp [keyStep, hkey, tblGet_set, entryNe]
    simp [do_toml, hsec1, hk, resolveCtx, pyStr, hsec, hks, writeCtx]

/-- Witness for do_toml_present_none_value, both already-existing
contexts: on the empty document with no section given, the key k is
stored top-level as None with changed false and no message; with an
existing empty drinks section, fav is stored as None in the section,
again changed false and no message. -/
theorem do_toml_present_none_value_witness :
    do_toml [] none (some "k") none St.present true =
      some ⟨[("k", Entry.scalar none)], false, []⟩
    ∧ do_toml [("drinks", Entry.table [])] (some "drinks") (some "fav") none St.present true =
      some ⟨[("drinks", Entry.table [("fav", Entry.scalar none)])], false, []⟩ :=
  ⟨(do_toml_present_none_value [] none "k" rfl).1 rfl rfl,
   (do_toml_present_none_value [("drinks", Entry.table [])] (some "drinks") "fav" rfl).2
      "drinks" [] rfl rfl rfl rfl⟩

/-- Claim C9: with state absent and a supplied empty-string value, a
present key is removed unconditionally: the empty string is falsy, so
the key step behaves exactly as with an omitted value. -/
theorem keyStep_absent_empty_like_none (t : Tbl) (k : String) (hmem : tblMem t k = true) :
    keyStep (some (Entry.table t)) k (some "") St.absent =
      some (Entry.table (tblPop t k), true, ["Removed key " ++ k ++ "."])
    ∧ keyStep (some (Entry.table t)) k (some "") St.absent =
      keyStep (some (Entry.table t)) k none St.absent := by
  constructor
  · simp [keyStep, hmem, truthy]
  · simp [keyStep, hmem, truthy]

/-- Witness for keyStep_absent_empty_like_none: the key fav holding
lemonade is removed by an absent request whose value is the empty
string. -/
theorem keyStep_absent_empty_like_none_witness :
    keyStep (some (Entry.table [("fav", Entry.scalar (some "lemonade"))])) "fav" (some "")
        St.absent = some (Entry.table [], true, ["Removed key fav."]) :=
  (keyStep_absent_empty_like_none [("fav", Entry.scalar (some "lemonade"))] "fav" rfl).1

/-- Claim C10: the create parameter is never consulted: two runs that
differ only in create agree exactly, and with a nonexistent path the
starting document is empty no matter what was parsed or what create
says. -/
theorem do_toml_io_ignores_create :
    (∀ (pathExists : Bool) (parsed : Option Tbl) (checkMode : Bool)
        (sec key value : Option String) (state : St) (c1 c2 : Bool),
        do_toml_io pathExists parsed checkMode sec key value state c1 =
          do_toml_io pathExists parsed checkMode sec key value state c2)
    ∧ (∀ (parsed1 parsed2 : Option Tbl) (checkMode : Bool)
        (sec key value : Option String) (state : St) (create : Bool),
        do_toml_io false parsed1 checkMode sec key value state create =
          do_toml_io false parsed2 checkMode sec key value state create) :=
  ⟨fun _ _ _ _ _ _ _ _ _ => rfl, fun _ _ _ _ _ _ _ _ => rfl⟩

end TomlFile
